import Mathlib

/-!
Shallow embedding of the day20 "noodles" core (WGSL compute shader
`create_instances` together with its helpers `hash`, `noised`,
`curl_noise`, and the Rust-side buffer constants), and proofs settling
the frozen claims about it.

Modelling conventions:
- 32-bit unsigned shader integers are `Nat` reduced by an explicit
  `% 4294967296`; the componentwise u32 operations of the source are
  mirrored one for one.
- f32 arithmetic is embedded as exact rational arithmetic (`ℚ`); claims
  about approximate float behaviour are stated with explicit tolerances.
- The single f32 operation with no exact rational counterpart, the
  square root used by the builtin `normalize`, is passed in as an
  explicit parameter `sq : ℚ → ℚ`; theorems either hold for every `sq`
  or carry an explicit hypothesis that `sq` approximates the square root
  at the argument where the code applies it.
- The WGSL conversion `vec3<u32>(floor(x))` saturates below at 0 and
  above at 4294967295, exactly as the WGSL conversion rules prescribe.
-/

attribute [local semireducible] Rat.add Rat.mul Rat.inv Rat.sub

set_option maxRecDepth 1000000

/-- A 3-component float vector (`vec3<f32>`), embedded with exact
rational components. -/
structure Vec3 where
  x : ℚ
  y : ℚ
  z : ℚ
  deriving DecidableEq

instance : Inhabited Vec3 := ⟨⟨0, 0, 0⟩⟩

namespace Vec3

/-- Componentwise vector addition. -/
def add (a b : Vec3) : Vec3 := ⟨a.x + b.x, a.y + b.y, a.z + b.z⟩

/-- Componentwise vector subtraction. -/
def sub (a b : Vec3) : Vec3 := ⟨a.x - b.x, a.y - b.y, a.z - b.z⟩

/-- Scalar times vector. -/
def smul (s : ℚ) (a : Vec3) : Vec3 := ⟨s * a.x, s * a.y, s * a.z⟩

/-- Componentwise (Hadamard) product, WGSL `vec * vec`. -/
def cmul (a b : Vec3) : Vec3 := ⟨a.x * b.x, a.y * b.y, a.z * b.z⟩

/-- Vector plus broadcast scalar, WGSL `vec + scalar`. -/
def addS (a : Vec3) (s : ℚ) : Vec3 := ⟨a.x + s, a.y + s, a.z + s⟩

/-- Vector minus broadcast scalar, WGSL `vec - scalar`. -/
def subS (a : Vec3) (s : ℚ) : Vec3 := ⟨a.x - s, a.y - s, a.z - s⟩

/-- Dot product. -/
def dot (a b : Vec3) : ℚ := a.x * b.x + a.y * b.y + a.z * b.z

/-- Cross product. -/
def cross (a b : Vec3) : Vec3 :=
  ⟨a.y * b.z - a.z * b.y, a.z * b.x - a.x * b.z, a.x * b.y - a.y * b.x⟩

/-- WGSL swizzle `.yzx`. -/
def yzx (a : Vec3) : Vec3 := ⟨a.y, a.z, a.x⟩

/-- WGSL swizzle `.zxy`. -/
def zxy (a : Vec3) : Vec3 := ⟨a.z, a.x, a.y⟩

end Vec3

/-- A 4-component float vector (`vec4<f32>`). -/
structure Vec4 where
  x : ℚ
  y : ℚ
  z : ℚ
  w : ℚ
  deriving DecidableEq

/-- WGSL swizzle `.yzw`. -/
def Vec4.yzw (a : Vec4) : Vec3 := ⟨a.y, a.z, a.w⟩

/-- A 3-component `vec3<u32>`; components are kept below `2^32` by the
operations. -/
structure UVec3 where
  x : Nat
  y : Nat
  z : Nat
  deriving DecidableEq

/-- The u32 modulus `2^32`. -/
def U32SIZE : Nat := 4294967296

/-- Reduce a natural number to u32 range, the implicit wraparound of
every WGSL u32 operation. -/
def u32 (n : Nat) : Nat := n % U32SIZE

/-- Componentwise u32 vector addition with wraparound. -/
def UVec3.uadd (a b : UVec3) : UVec3 := ⟨u32 (a.x + b.x), u32 (a.y + b.y), u32 (a.z + b.z)⟩

/-- The PCG3D hash of the source (`fn hash`): three rounds of affine
mixing, a xorshift, and a second mixing round, finally scaled by
`1.0/f32(0xffffffffu)` into the unit interval.  The u32 updates are
sequential exactly as in the source (`v.x` is updated before `v.y`
reads it). -/
def hash (u : UVec3) : Vec3 :=
  let vx0 := u32 (u.x * 1664525 + 1013904223)
  let vy0 := u32 (u.y * 1664525 + 1013904223)
  let vz0 := u32 (u.z * 1664525 + 1013904223)
  let vx1 := u32 (vx0 + vy0 * vz0)
  let vy1 := u32 (vy0 + vz0 * vx1)
  let vz1 := u32 (vz0 + vx1 * vy1)
  let vx2 := vx1 ^^^ (vx1 >>> 16)
  let vy2 := vy1 ^^^ (vy1 >>> 16)
  let vz2 := vz1 ^^^ (vz1 >>> 16)
  let vx3 := u32 (vx2 + vy2 * vz2)
  let vy3 := u32 (vy2 + vz2 * vx3)
  let vz3 := u32 (vz2 + vx3 * vy3)
  ⟨(vx3 : ℚ) * (1 / 4294967295), (vy3 : ℚ) * (1 / 4294967295), (vz3 : ℚ) * (1 / 4294967295)⟩

/-- WGSL `fract`: the fractional part `x - floor(x)`, always in `[0,1)`. -/
def fract (q : ℚ) : ℚ := q - ⌊q⌋

/-- The WGSL conversion `u32(floor(q))`: saturating conversion of the
floor to u32 (negative values clamp to 0, huge values to `2^32 - 1`). -/
def floorU32 (q : ℚ) : Nat := if q < 0 then 0 else min ⌊q⌋.toNat 4294967295

/-- Gradient noise with analytic derivatives (`fn noised`), ported from
the source line by line: lattice cell and fractional position, quintic
interpolant `u` with derivative `du`, eight corner gradients from
`hash`, corner projections, the seven interpolation coefficients, and
the final `vec4(value, derivatives)`. -/
def noised (xv : Vec3) : Vec4 :=
  let i : UVec3 := ⟨floorU32 xv.x, floorU32 xv.y, floorU32 xv.z⟩
  let f : Vec3 := ⟨fract xv.x, fract xv.y, fract xv.z⟩
  let u := Vec3.cmul (Vec3.cmul f (Vec3.cmul f f))
    (Vec3.addS (Vec3.cmul f (Vec3.subS (Vec3.smul 6 f) 15)) 10)
  let du := Vec3.smul 30 (Vec3.cmul (Vec3.cmul f f)
    (Vec3.addS (Vec3.cmul f (Vec3.subS f 2)) 1))
  let ga := hash (i.uadd ⟨0, 0, 0⟩)
  let gb := hash (i.uadd ⟨1, 0, 0⟩)
  let gc := hash (i.uadd ⟨0, 1, 0⟩)
  let gd := hash (i.uadd ⟨1, 1, 0⟩)
  let ge := hash (i.uadd ⟨0, 0, 1⟩)
  let gf := hash (i.uadd ⟨1, 0, 1⟩)
  let gg := hash (i.uadd ⟨0, 1, 1⟩)
  let gh := hash (i.uadd ⟨1, 1, 1⟩)
  let va := Vec3.dot ga (Vec3.sub f ⟨0, 0, 0⟩)
  let vb := Vec3.dot gb (Vec3.sub f ⟨1, 0, 0⟩)
  let vc := Vec3.dot gc (Vec3.sub f ⟨0, 1, 0⟩)
  let vd := Vec3.dot gd (Vec3.sub f ⟨1, 1, 0⟩)
  let ve := Vec3.dot ge (Vec3.sub f ⟨0, 0, 1⟩)
  let vf := Vec3.dot gf (Vec3.sub f ⟨1, 0, 1⟩)
  let vg := Vec3.dot gg (Vec3.sub f ⟨0, 1, 1⟩)
  let vh := Vec3.dot gh (Vec3.sub f ⟨1, 1, 1⟩)
  let k0 := va - vb - vc + vd
  let g0 := Vec3.add (Vec3.sub (Vec3.sub ga gb) gc) gd
  let k1 := va - vc - ve + vg
  let g1 := Vec3.add (Vec3.sub (Vec3.sub ga gc) ge) gg
  let k2 := va - vb - ve + vf
  let g2 := Vec3.add (Vec3.sub (Vec3.sub ga gb) ge) gf
  let k3 := -va + vb + vc - vd + ve - vf - vg + vh
  let g3 := Vec3.add (Vec3.sub (Vec3.sub (Vec3.add (Vec3.sub (Vec3.add (Vec3.add
    (Vec3.smul (-1) ga) gb) gc) gd) ge) gf) gg) gh
  let k4 := vb - va
  let g4 := Vec3.sub gb ga
  let k5 := vc - va
  let g5 := Vec3.sub gc ga
  let k6 := ve - va
  let g6 := Vec3.sub ge ga
  let value := va + k4 * u.x + k5 * u.y + k6 * u.z
    + k0 * u.x * u.y + k1 * u.y * u.z + k2 * u.z * u.x + k3 * u.x * u.y * u.z
  let deriv := Vec3.add (Vec3.add (Vec3.add (Vec3.add (Vec3.add (Vec3.add (Vec3.add
    ga (Vec3.smul u.x g4)) (Vec3.smul u.y g5)) (Vec3.smul u.z g6))
    (Vec3.smul (u.x * u.y) g0)) (Vec3.smul (u.y * u.z) g1)) (Vec3.smul (u.z * u.x) g2))
    (Vec3.add (Vec3.smul (u.x * u.y * u.z) g3)
      (Vec3.cmul du (Vec3.add (Vec3.add (Vec3.add ⟨k4, k5, k6⟩
        (Vec3.cmul ⟨k0, k1, k2⟩ u.yzx)) (Vec3.cmul ⟨k2, k0, k1⟩ u.zxy))
        (Vec3.cmul (Vec3.smul k3 u.yzx) u.zxy))))
  ⟨value, deriv.x, deriv.y, deriv.z⟩

/-- The local frame returned by the curl sampler (`struct Frame`). -/
structure Frame where
  normal : Vec3
  binormal : Vec3
  tangent : Vec3
  deriving DecidableEq

/-- WGSL `normalize(v) = v / length(v)` where `length(v)` is the square
root of `dot v v`; the square root is supplied as the parameter `sq`. -/
def normalizeV (sq : ℚ → ℚ) (v : Vec3) : Vec3 := Vec3.smul (1 / sq (Vec3.dot v v)) v

/-- The curl-noise sampler (`fn curl_noise`): gradients of three
decorrelated noise fields, the curl-formula tangent, and a frame whose
normal is the normalized cross product of the normalized tangent with
the fixed world up axis `(0,1,0)`.  The tangent is returned
unnormalized, exactly as in the source. -/
def curl_noise (sq : ℚ → ℚ) (position offset_y offset_z : Vec3) (scale : ℚ) : Frame :=
  let gx := (noised (Vec3.smul scale position)).yzw
  let gy := (noised (Vec3.add (Vec3.smul scale position) offset_y)).yzw
  let gz := (noised (Vec3.add (Vec3.smul scale position) offset_z)).yzw
  let tangent : Vec3 := ⟨gz.y - gy.z, gx.z - gz.x, gy.x - gx.y⟩
  let tangent_norm := normalizeV sq tangent
  let normal := normalizeV sq (Vec3.cross tangent_norm ⟨0, 1, 0⟩)
  let binormal := Vec3.cross normal tangent_norm
  ⟨normal, binormal, tangent⟩

/-- The tangent expression of `curl_noise` on its own (it does not
depend on the square root used by the normalizations). -/
def curlTangent (position offset_y offset_z : Vec3) (scale : ℚ) : Vec3 :=
  let gx := (noised (Vec3.smul scale position)).yzw
  let gy := (noised (Vec3.add (Vec3.smul scale position) offset_y)).yzw
  let gz := (noised (Vec3.add (Vec3.smul scale position) offset_z)).yzw
  ⟨gz.y - gy.z, gx.z - gz.x, gy.x - gx.y⟩

/-- Shader constant `STEP_SIZE = 0.05`. -/
def STEP_SIZE : ℚ := 5 / 100

/-- Shader constant `NOISE_SCALE = 0.5`. -/
def NOISE_SCALE : ℚ := 5 / 10

/-- Shader constant `GRID_SPACING = 0.3`. -/
def GRID_SPACING : ℚ := 3 / 10

/-- Shader and Rust constant `SEGMENTS_PER_STRAND = 32`. -/
def SEGMENTS_PER_STRAND : Nat := 32

/-- Modelled from the spec: the excerpted source uses a constant
`TUBE_RADIUS` for the per-segment radius without showing its
definition; any fixed rational stands in for it (the earlier circles
shader of the same source uses `0.02`). -/
def TUBE_RADIUS : ℚ := 2 / 100

/-- The per-segment record written to the instance buffer
(`struct Instance`): seven `vec3<f32>` fields and an `f32` radius. -/
structure Instance where
  start_position : Vec3
  start_normal : Vec3
  start_bitangent : Vec3
  end_position : Vec3
  end_normal : Vec3
  end_bitangent : Vec3
  colour : Vec3
  radius : ℚ
  deriving DecidableEq

instance : Inhabited Instance :=
  ⟨⟨⟨0, 0, 0⟩, ⟨0, 0, 0⟩, ⟨0, 0, 0⟩, ⟨0, 0, 0⟩, ⟨0, 0, 0⟩, ⟨0, 0, 0⟩, ⟨0, 0, 0⟩, 0⟩⟩

/-- The per-frame offset `offset_1 = vec3(100.0, uniforms.time, 100.0)`
of `create_instances`. -/
def offset_1 (time : ℚ) : Vec3 := ⟨100, time, 100⟩

/-- The per-frame offset `offset_2 = vec3(-100.0, uniforms.time, -150.0)`
of `create_instances`. -/
def offset_2 (time : ℚ) : Vec3 := ⟨-100, time, -150⟩

/-- The mutable loop state of `create_instances`: the variables
`end_position`, `end_normal`, `end_binormal` carried across iterations. -/
structure StrandState where
  end_position : Vec3
  end_normal : Vec3
  end_binormal : Vec3

/-- The body of the `for` loop of `create_instances`, unrolled into a
recursion over the remaining iteration count; each iteration samples
`curl_noise` at the current position, advances the position by
`frame.tangent * STEP_SIZE`, and emits one `Instance` record whose
start fields are the incoming state and whose end fields are the
updated state. -/
def strandLoop (sq : ℚ → ℚ) (o1 o2 colour : Vec3) : StrandState → Nat → List Instance
  | _, 0 => []
  | st, Nat.succ n =>
    let frame := curl_noise sq st.end_position o1 o2 NOISE_SCALE
    let end_position := Vec3.add st.end_position (Vec3.smul STEP_SIZE frame.tangent)
    Instance.mk st.end_position st.end_normal st.end_binormal
      end_position frame.normal frame.binormal colour TUBE_RADIUS
      :: strandLoop sq o1 o2 colour ⟨end_position, frame.normal, frame.binormal⟩ n

/-- The grid size `num_workgroups * vec3(16,16,1)` of
`create_instances` (u32 arithmetic). -/
def gridSize (nw : UVec3) : UVec3 := ⟨u32 (nw.x * 16), u32 (nw.y * 16), u32 (nw.z * 1)⟩

/-- The linearized `global_invocation_index` of `create_instances`
(u32 arithmetic). -/
def globalIndex (gid nw : UVec3) : Nat :=
  u32 ((gridSize nw).y * (gridSize nw).x * gid.z + (gridSize nw).x * gid.y + gid.x)

/-- The `total_invocations` of `create_instances` (u32 arithmetic). -/
def totalInvocations (nw : UVec3) : Nat :=
  u32 ((gridSize nw).x * (gridSize nw).y * (gridSize nw).z)

/-- One invocation of `create_instances` for grid coordinate `gid` in a
dispatch of `nw` workgroups: seed position from the grid coordinate and
`GRID_SPACING`, initial frame, greyscale colour
`vec3(f32(global_invocation_index)/f32(total_invocations))`, then the
integration loop.  The iteration count is a parameter `n`, instantiated
with `SEGMENTS_PER_STRAND` by `create_instances` itself, so that claims
about varying the segment count are statable. -/
def create_strand (sq : ℚ → ℚ) (gid nw : UVec3) (time : ℚ) (n : Nat) : List Instance :=
  let x_init : ℚ := (gid.x : ℚ) * GRID_SPACING
  let y_init : ℚ := (gid.y : ℚ) * GRID_SPACING
  let end_position : Vec3 := ⟨x_init, 0, y_init⟩
  let frame := curl_noise sq end_position (offset_1 time) (offset_2 time) NOISE_SCALE
  let c : ℚ := (globalIndex gid nw : ℚ) / (totalInvocations nw : ℚ)
  strandLoop sq (offset_1 time) (offset_2 time) ⟨c, c, c⟩
    ⟨end_position, frame.normal, frame.binormal⟩ n

/-- The records of one invocation together with the buffer indices they
are written to: iteration `i` writes
`instances[global_invocation_index * SEGMENTS_PER_STRAND + i]`
(u32 arithmetic on the index). -/
def strandWritesN (sq : ℚ → ℚ) (gid nw : UVec3) (time : ℚ) (n : Nat) : List (Nat × Instance) :=
  ((List.range n).zip (create_strand sq gid nw time n)).map
    (fun p => (u32 (globalIndex gid nw * n + p.1), p.2))

/-- The writes of one invocation at the source iteration count. -/
def strandWrites (sq : ℚ → ℚ) (gid nw : UVec3) (time : ℚ) : List (Nat × Instance) :=
  strandWritesN sq gid nw time SEGMENTS_PER_STRAND

/-- All grid coordinates of a dispatch of `nw` workgroups of size
`(16,16,1)`. -/
def gridIds (nw : UVec3) : List UVec3 :=
  (List.range (gridSize nw).z).flatMap (fun gz =>
    (List.range (gridSize nw).y).flatMap (fun gy =>
      (List.range (gridSize nw).x).map (fun gx => ⟨gx, gy, gz⟩)))

/-- All buffer writes of one frame (one dispatch), with a parametric
per-strand segment count. -/
def allWritesN (sq : ℚ → ℚ) (nw : UVec3) (time : ℚ) (n : Nat) : List (Nat × Instance) :=
  (gridIds nw).flatMap (fun g => strandWritesN sq g nw time n)

/-- All buffer writes of one frame at the source segment count. -/
def allWrites (sq : ℚ → ℚ) (nw : UVec3) (time : ℚ) : List (Nat × Instance) :=
  allWritesN sq nw time SEGMENTS_PER_STRAND

/-- Rust-side strand count of a dispatch: `NUM_STRANDS` generalized to
the workgroup count `nw` (the source fixes `WORKGROUPS = (1,2,1)` and
`WORKGROUP_SIZE = (16,16,1)`). -/
def totalStrands (nw : UVec3) : Nat := (nw.x * 16) * (nw.y * 16) * (nw.z * 1)

/-- Rust-side constant `WORKGROUPS = uvec3(1, 2, 1)`. -/
def WORKGROUPS : UVec3 := ⟨1, 2, 1⟩

/-- Rust-side constant `NUM_STRANDS = 512` (16 * 32 * 1 strands). -/
def NUM_STRANDS : Nat := totalStrands WORKGROUPS

/-- Rust-side constant `NUM_SEGMENTS = NUM_STRANDS * SEGMENTS_PER_STRAND`. -/
def NUM_SEGMENTS : Nat := NUM_STRANDS * SEGMENTS_PER_STRAND

/-- Bytes per record under the padded storage layout assumed by the
allocation: each of the 8 fields (seven `vec3<f32>` and the final
`f32`) occupies a full 16-byte slot. -/
def RECORD_BYTES : Nat := 8 * 16

/-- The instance buffer allocation `8 * 16 * NUM_SEGMENTS` bytes,
generalized over the dispatch and the per-strand segment count. -/
def bufferCapacity (nw : UVec3) (n : Nat) : Nat := 8 * 16 * (totalStrands nw * n)

/-- The last byte offset touched when record index `r` is written: the
record starts at `r * RECORD_BYTES` and its final field, the `f32`
radius in the eighth 16-byte slot, ends 4 bytes into that slot. -/
def lastByteTouched (r : Nat) : Nat := r * RECORD_BYTES + 7 * 16 + 4 - 1

/-- A worker is in bounds when each grid coordinate is below the grid
size, which the execution environment guarantees for dispatched
invocations. -/
def InBounds (gid nw : UVec3) : Prop :=
  gid.x < (gridSize nw).x ∧ gid.y < (gridSize nw).y ∧ gid.z < (gridSize nw).z

instance (gid nw : UVec3) : Decidable (InBounds gid nw) := by
  unfold InBounds; infer_instance

/-- A dispatch is overflow free when the grid dimensions and the whole
index range of the buffer writes fit in u32, so that none of the u32
index arithmetic of `create_instances` wraps. -/
def NoOverflow (nw : UVec3) : Prop :=
  nw.x * 16 < U32SIZE ∧ nw.y * 16 < U32SIZE ∧ nw.z * 1 < U32SIZE ∧
    (nw.x * 16) * (nw.y * 16) * (nw.z * 1) * SEGMENTS_PER_STRAND ≤ U32SIZE

instance (nw : UVec3) : Decidable (NoOverflow nw) := by
  unfold NoOverflow; infer_instance

/-- The trivial stand-in square root (used where a theorem holds for
every `sq`, and for counterexamples to claims that quantify over the
square root). -/
def sqOne : ℚ → ℚ := fun _ => 1

/-- The hypothesis that `sq` behaves like the float square root at the
single argument `d`: the result is nonnegative and squares back to `d`
up to a relative error of one part in a thousand. -/
def GoodAt (sq : ℚ → ℚ) (d : ℚ) : Prop :=
  0 < d ∧ 0 ≤ sq d ∧ |sq d ^ 2 - d| ≤ d / 1000

instance (sq : ℚ → ℚ) (d : ℚ) : Decidable (GoodAt sq d) := by
  unfold GoodAt; infer_instance

/-- Basis vector `(1,0,0)` for the finite-difference stencil. -/
def ex1 : Vec3 := ⟨1, 0, 0⟩

/-- Basis vector `(0,1,0)` for the finite-difference stencil. -/
def ex2 : Vec3 := ⟨0, 1, 0⟩

/-- Basis vector `(0,0,1)` for the finite-difference stencil. -/
def ex3 : Vec3 := ⟨0, 0, 1⟩

/-- Central finite-difference estimate of the divergence of a vector
field at `p` with stencil spacing `h`. -/
def fdDivergence (F : Vec3 → Vec3) (p : Vec3) (h : ℚ) : ℚ :=
  ((F (Vec3.add p (Vec3.smul h ex1))).x - (F (Vec3.sub p (Vec3.smul h ex1))).x
    + (F (Vec3.add p (Vec3.smul h ex2))).y - (F (Vec3.sub p (Vec3.smul h ex2))).y
    + (F (Vec3.add p (Vec3.smul h ex3))).z - (F (Vec3.sub p (Vec3.smul h ex3))).z) / (2 * h)

/-- The positions at which the divergence of the field is sampled for
the divergence-free check (interior points of three different lattice
cells of the noise). -/
def samplePositions : List Vec3 :=
  [⟨85 / 256, 119 / 256, 45 / 256⟩, ⟨3 / 4, 85 / 256, 5 / 8⟩, ⟨13 / 256, 201 / 256, 133 / 256⟩]

/-- Exact rational value of `dot t t` for the tangent `t` sampled by
`curl_noise` at position `(0,0,0)` with the time-0 offsets and
`NOISE_SCALE` (precomputed, used by the square-root lookup below). -/
def dTanC6 : ℚ := (4160585411594249749 : ℚ) / 18446744065119617025

/-- A rational approximation of the square root of `dTanC6`, accurate
to far better than one part in a thousand. -/
def sTanC6 : ℚ := (1204056652902238288694317441231 : ℚ) / 2535301199275867182413434060800

/-- Exact rational value of `dot c c` for
`c = cross (normalize_with_sTanC6 t) (0,1,0)` at the same sample. -/
def dCrossC6 : ℚ :=
  (608674225397390742264172180138531635238581596039197753344000 : ℚ)
    / 1449752423398141131197012549013659740715672814253563138795361

/-- A rational approximation of the square root of `dCrossC6`, accurate
to far better than one part in a thousand. -/
def sCrossC6 : ℚ :=
  (1032854638187686608273500605003636299261745224564197756456935281638833287 : ℚ)
    / 1594019646922690904495005243114308004773287519194966101144879188867547136

/-- A concrete square-root stand-in that is a good approximation at the
two arguments the normalizations of `curl_noise` actually use at the
witness sample, and arbitrary elsewhere. -/
def sqC6 : ℚ → ℚ := fun q =>
  if q = dTanC6 then sTanC6 else if q = dCrossC6 then sCrossC6 else 0

/-! ### Shared algebraic and structural lemmas -/

theorem Vec3.cross_smul_left (a : ℚ) (u v : Vec3) :
    Vec3.cross (Vec3.smul a u) v = Vec3.smul a (Vec3.cross u v) := by
  simp only [Vec3.cross, Vec3.smul, Vec3.mk.injEq]
  refine ⟨?_, ?_, ?_⟩ <;> ring

theorem Vec3.dot_cross_left (u v : Vec3) : Vec3.dot (Vec3.cross u v) u = 0 := by
  simp only [Vec3.cross, Vec3.dot]; ring

theorem Vec3.dot_cross_right (u v : Vec3) : Vec3.dot (Vec3.cross u v) v = 0 := by
  simp only [Vec3.cross, Vec3.dot]; ring

theorem Vec3.dot_smul_left (a : ℚ) (u v : Vec3) :
    Vec3.dot (Vec3.smul a u) v = a * Vec3.dot u v := by
  simp only [Vec3.dot, Vec3.smul]; ring

theorem Vec3.dot_smul_right (a : ℚ) (u v : Vec3) :
    Vec3.dot u (Vec3.smul a v) = a * Vec3.dot u v := by
  simp only [Vec3.dot, Vec3.smul]; ring

theorem Vec3.dot_cross_self (u v : Vec3) :
    Vec3.dot (Vec3.cross u v) (Vec3.cross u v)
      = Vec3.dot u u * Vec3.dot v v - Vec3.dot u v ^ 2 := by
  simp only [Vec3.cross, Vec3.dot]; ring

theorem Vec3.smul_zero_vec (a : ℚ) : Vec3.smul a ⟨0, 0, 0⟩ = ⟨0, 0, 0⟩ := by
  simp [Vec3.smul]

theorem normalizeV_def (sq : ℚ → ℚ) (v : Vec3) :
    normalizeV sq v = Vec3.smul (1 / sq (Vec3.dot v v)) v := rfl

theorem normalizeV_zero (sq : ℚ → ℚ) : normalizeV sq ⟨0, 0, 0⟩ = ⟨0, 0, 0⟩ := by
  rw [normalizeV_def, Vec3.smul_zero_vec]

theorem curl_noise_tangent (sq : ℚ → ℚ) (p oy oz : Vec3) (s : ℚ) :
    (curl_noise sq p oy oz s).tangent = curlTangent p oy oz s := rfl

theorem curl_noise_normal (sq : ℚ → ℚ) (p oy oz : Vec3) (s : ℚ) :
    (curl_noise sq p oy oz s).normal
      = normalizeV sq (Vec3.cross (normalizeV sq (curlTangent p oy oz s)) ⟨0, 1, 0⟩) := rfl

theorem curl_noise_binormal (sq : ℚ → ℚ) (p oy oz : Vec3) (s : ℚ) :
    (curl_noise sq p oy oz s).binormal
      = Vec3.cross (curl_noise sq p oy oz s).normal (normalizeV sq (curlTangent p oy oz s)) := rfl

theorem strandLoop_length (sq : ℚ → ℚ) (o1 o2 c : Vec3) :
    ∀ (n : Nat) (st : StrandState), (strandLoop sq o1 o2 c st n).length = n := by
  intro n
  induction n with
  | zero => intro st; rfl
  | succ m ih => intro st; simpa [strandLoop] using ih _

theorem strandLoop_take (sq : ℚ → ℚ) (o1 o2 c : Vec3) :
    ∀ (n m : Nat) (st : StrandState),
      (strandLoop sq o1 o2 c st (n + m)).take n = strandLoop sq o1 o2 c st n := by
  intro n
  induction n with
  | zero => intro m st; rfl
  | succ k ih =>
    intro m st
    have : k + 1 + m = (k + m) + 1 := by omega
    rw [this]
    simpa [strandLoop] using ih m _

/-- Every record emitted by the loop satisfies the per-record contract:
constant colour and radius, forward-Euler end position, and end frame
equal to the frame sampled at the record's start position. -/
theorem strandLoop_record_spec (sq : ℚ → ℚ) (o1 o2 c : Vec3) :
    ∀ (n : Nat) (st : StrandState), ∀ rec ∈ strandLoop sq o1 o2 c st n,
      rec.colour = c ∧ rec.radius = TUBE_RADIUS ∧
      rec.end_position = Vec3.add rec.start_position
        (Vec3.smul STEP_SIZE (curl_noise sq rec.start_position o1 o2 NOISE_SCALE).tangent) ∧
      rec.end_normal = (curl_noise sq rec.start_position o1 o2 NOISE_SCALE).normal ∧
      rec.end_bitangent = (curl_noise sq rec.start_position o1 o2 NOISE_SCALE).binormal := by
  intro n
  induction n with
  | zero => intro st rec hrec; simp [strandLoop] at hrec
  | succ m ih =>
    intro st rec hrec
    rw [strandLoop] at hrec
    rcases List.mem_cons.mp hrec with h | h
    · subst h
      refine ⟨rfl, rfl, rfl, rfl, rfl⟩
    · exact ih _ rec h

/-- The first record of a nonempty loop starts at the incoming state. -/
theorem strandLoop_head_start (sq : ℚ → ℚ) (o1 o2 c : Vec3) (st : StrandState) (m : Nat) :
    ((strandLoop sq o1 o2 c st (m + 1)).getD 0 default).start_position = st.end_position ∧
    ((strandLoop sq o1 o2 c st (m + 1)).getD 0 default).start_normal = st.end_normal ∧
    ((strandLoop sq o1 o2 c st (m + 1)).getD 0 default).start_bitangent = st.end_binormal := by
  exact ⟨rfl, rfl, rfl⟩

/-- Chain continuity inside the loop: the end fields of record `i` are
the start fields of record `i + 1`. -/
theorem strandLoop_chain (sq : ℚ → ℚ) (o1 o2 c : Vec3) :
    ∀ (n : Nat) (st : StrandState) (i : Nat), i + 1 < n →
      (((strandLoop sq o1 o2 c st n).getD i default).end_position
          = ((strandLoop sq o1 o2 c st n).getD (i + 1) default).start_position) ∧
      (((strandLoop sq o1 o2 c st n).getD i default).end_normal
          = ((strandLoop sq o1 o2 c st n).getD (i + 1) default).start_normal) ∧
      (((strandLoop sq o1 o2 c st n).getD i default).end_bitangent
          = ((strandLoop sq o1 o2 c st n).getD (i + 1) default).start_bitangent) := by
  intro n
  induction n with
  | zero => intro st i h; omega
  | succ m ih =>
    intro st i h
    match i, h with
    | 0, h =>
      have hm : 1 ≤ m := by omega
      obtain ⟨k, rfl⟩ : ∃ k, m = k + 1 := ⟨m - 1, by omega⟩
      rw [strandLoop]
      refine ⟨?_, ?_, ?_⟩ <;> simp [List.getD, strandLoop]
    | Nat.succ j, h =>
      have hj : j + 1 < m := by omega
      rw [strandLoop]
      simpa using ih _ j hj

theorem Vec3.dot_self_cross (u v : Vec3) : Vec3.dot u (Vec3.cross u v) = 0 := by
  simp only [Vec3.cross, Vec3.dot]; ring

theorem Vec3.cross_smul_right (a : ℚ) (u v : Vec3) :
    Vec3.cross u (Vec3.smul a v) = Vec3.smul a (Vec3.cross u v) := by
  simp only [Vec3.cross, Vec3.smul, Vec3.mk.injEq]
  refine ⟨?_, ?_, ?_⟩ <;> ring

theorem Vec3.dot_smul_smul (a : ℚ) (u : Vec3) :
    Vec3.dot (Vec3.smul a u) (Vec3.smul a u) = a ^ 2 * Vec3.dot u u := by
  simp only [Vec3.dot, Vec3.smul]; ring

/-- Quantitative consequence of `GoodAt`: the squared length that
normalization produces, `d * (1/sq d)^2`, lies within a thousandth of 1. -/
theorem goodAt_ratio_bounds (sq : ℚ → ℚ) (d : ℚ) (h : GoodAt sq d) :
    1000 / 1001 ≤ d * (1 / sq d) ^ 2 ∧ d * (1 / sq d) ^ 2 ≤ 1000 / 999 := by
  obtain ⟨hd, hs, habs⟩ := h
  obtain ⟨h1, h2⟩ := abs_le.mp habs
  have hlo : 999 / 1000 * d ≤ sq d ^ 2 := by linarith
  have hup : sq d ^ 2 ≤ 1001 / 1000 * d := by linarith
  have hs2pos : 0 < sq d ^ 2 := by nlinarith
  have e : d * (1 / sq d) ^ 2 = d / sq d ^ 2 := by
    rw [one_div, inv_pow, div_eq_mul_inv]
  constructor
  · rw [e, le_div_iff₀ hs2pos]; linarith
  · rw [e, div_le_iff₀ hs2pos]; linarith

/-- Reduction of u32 wraparound when the value already fits. -/
theorem u32_eq_of_lt {n : Nat} (h : n < U32SIZE) : u32 n = n := Nat.mod_eq_of_lt h

/-- Under `NoOverflow` the grid size is the unwrapped product. -/
theorem gridSize_eq (nw : UVec3) (h : NoOverflow nw) :
    gridSize nw = ⟨nw.x * 16, nw.y * 16, nw.z * 1⟩ := by
  obtain ⟨h1, h2, h3, _⟩ := h
  simp only [gridSize]
  rw [u32_eq_of_lt h1, u32_eq_of_lt h2, u32_eq_of_lt h3]

/-- Strict bound of the mixed-radix linearization. -/
theorem mixedRadix_lt {gx gy gz x y z : Nat} (hx : x < gx) (hy : y < gy) (hz : z < gz) :
    gy * gx * z + gx * y + x < gx * gy * gz := by
  have e1 : gx * (y + 1) = gx * y + gx := by ring
  have hy1 : gx * (y + 1) ≤ gx * gy := Nat.mul_le_mul_left gx (by omega)
  have e2 : gx * gy * (z + 1) = gy * gx * z + gx * gy := by ring
  have hz1 : gx * gy * (z + 1) ≤ gx * gy * gz := Nat.mul_le_mul_left (gx * gy) (by omega)
  omega

/-- Injectivity of the mixed-radix linearization on in-range digits. -/
theorem mixedRadix_inj {gx gy gz x1 y1 z1 x2 y2 z2 : Nat}
    (hx1 : x1 < gx) (hy1 : y1 < gy) (_hz1 : z1 < gz)
    (hx2 : x2 < gx) (hy2 : y2 < gy) (_hz2 : z2 < gz)
    (h : gy * gx * z1 + gx * y1 + x1 = gy * gx * z2 + gx * y2 + x2) :
    x1 = x2 ∧ y1 = y2 ∧ z1 = z2 := by
  have hgx : 0 < gx := by omega
  have e1 : gy * gx * z1 + gx * y1 + x1 = gx * (gy * z1 + y1) + x1 := by ring
  have e2 : gy * gx * z2 + gx * y2 + x2 = gx * (gy * z2 + y2) + x2 := by ring
  rw [e1, e2] at h
  have hx : x1 = x2 := by
    have m1 : (gx * (gy * z1 + y1) + x1) % gx = x1 := by
      rw [Nat.mul_add_mod, Nat.mod_eq_of_lt hx1]
    have m2 : (gx * (gy * z2 + y2) + x2) % gx = x2 := by
      rw [Nat.mul_add_mod, Nat.mod_eq_of_lt hx2]
    rw [← m1, ← m2, h]
  subst hx
  have hq : gy * z1 + y1 = gy * z2 + y2 := by
    have := Nat.add_right_cancel h
    exact Nat.eq_of_mul_eq_mul_left hgx this
  have hgy : 0 < gy := Nat.pos_of_ne_zero (by omega)
  have hy : y1 = y2 := by
    have m1 : (gy * z1 + y1) % gy = y1 := by rw [Nat.mul_add_mod, Nat.mod_eq_of_lt hy1]
    have m2 : (gy * z2 + y2) % gy = y2 := by rw [Nat.mul_add_mod, Nat.mod_eq_of_lt hy2]
    rw [← m1, ← m2, hq]
  subst hy
  have hz : z1 = z2 := Nat.eq_of_mul_eq_mul_left hgy (Nat.add_right_cancel hq)
  exact ⟨rfl, rfl, hz⟩

/-- Under `NoOverflow` and `InBounds` the global invocation index does
not wrap and is the plain mixed-radix linearization. -/
theorem globalIndex_eq (gid nw : UVec3) (hno : NoOverflow nw) (hb : InBounds gid nw) :
    globalIndex gid nw
      = (nw.y * 16) * (nw.x * 16) * gid.z + (nw.x * 16) * gid.y + gid.x := by
  obtain ⟨hx, hy, hz⟩ := hb
  rw [gridSize_eq nw hno] at hx hy hz
  have hlt : (nw.y * 16) * (nw.x * 16) * gid.z + (nw.x * 16) * gid.y + gid.x
      < (nw.x * 16) * (nw.y * 16) * (nw.z * 1) := mixedRadix_lt hx hy hz
  have hfits : (nw.x * 16) * (nw.y * 16) * (nw.z * 1) ≤ U32SIZE := by
    obtain ⟨_, _, _, h4⟩ := hno
    have h32 : (nw.x * 16) * (nw.y * 16) * (nw.z * 1) * 1
        ≤ (nw.x * 16) * (nw.y * 16) * (nw.z * 1) * SEGMENTS_PER_STRAND :=
      Nat.mul_le_mul_left _ (by norm_num [SEGMENTS_PER_STRAND])
    omega
  rw [globalIndex, gridSize_eq nw hno]
  exact u32_eq_of_lt (lt_of_lt_of_le hlt hfits)

/-- Under `NoOverflow` and `InBounds` the global invocation index is
below the total strand count. -/
theorem globalIndex_lt (gid nw : UVec3) (hno : NoOverflow nw) (hb : InBounds gid nw) :
    globalIndex gid nw < totalStrands nw := by
  obtain ⟨hx, hy, hz⟩ := hb
  rw [gridSize_eq nw hno] at hx hy hz
  rw [globalIndex_eq gid nw hno ⟨by rw [gridSize_eq nw hno]; exact hx,
    by rw [gridSize_eq nw hno]; exact hy, by rw [gridSize_eq nw hno]; exact hz⟩]
  exact mixedRadix_lt hx hy hz

/-- Under `NoOverflow` and `InBounds` distinct workers get distinct
global invocation indices. -/
theorem globalIndex_inj (a b nw : UVec3) (hno : NoOverflow nw)
    (ha : InBounds a nw) (hb : InBounds b nw)
    (h : globalIndex a nw = globalIndex b nw) : a = b := by
  obtain ⟨hax, hay, haz⟩ := ha
  obtain ⟨hbx, hby, hbz⟩ := hb
  rw [gridSize_eq nw hno] at hax hay haz hbx hby hbz
  rw [globalIndex_eq a nw hno ⟨by rw [gridSize_eq nw hno]; exact hax,
        by rw [gridSize_eq nw hno]; exact hay, by rw [gridSize_eq nw hno]; exact haz⟩,
      globalIndex_eq b nw hno ⟨by rw [gridSize_eq nw hno]; exact hbx,
        by rw [gridSize_eq nw hno]; exact hby, by rw [gridSize_eq nw hno]; exact hbz⟩] at h
  obtain ⟨h1, h2, h3⟩ := mixedRadix_inj hax hay haz hbx hby hbz h
  cases a; cases b; simp_all

/-- Length of the record list of one strand. -/
theorem create_strand_length (sq : ℚ → ℚ) (gid nw : UVec3) (time : ℚ) (n : Nat) :
    (create_strand sq gid nw time n).length = n := by
  simp [create_strand, strandLoop_length]

/-- Length of the write list of one strand. -/
theorem strandWritesN_length (sq : ℚ → ℚ) (gid nw : UVec3) (time : ℚ) (n : Nat) :
    (strandWritesN sq gid nw time n).length = n := by
  simp [strandWritesN, create_strand_length]

/-- The buffer indices of one strand are `globalIndex * n + i` for
`i < n`, still wrapped to u32. -/
theorem strandWritesN_fst (sq : ℚ → ℚ) (gid nw : UVec3) (time : ℚ) (n : Nat) :
    (strandWritesN sq gid nw time n).map Prod.fst
      = (List.range n).map (fun i => u32 (globalIndex gid nw * n + i)) := by
  rw [strandWritesN, List.map_map]
  have hz : ((List.range n).zip (create_strand sq gid nw time n)).map Prod.fst
      = List.range n := by
    apply List.map_fst_zip
    rw [List.length_range, create_strand_length]
  calc ((List.range n).zip (create_strand sq gid nw time n)).map
        (Prod.fst ∘ fun p => (u32 (globalIndex gid nw * n + p.1), p.2))
      = ((List.range n).zip (create_strand sq gid nw time n)).map
          ((fun i => u32 (globalIndex gid nw * n + i)) ∘ Prod.fst) := rfl
    _ = (((List.range n).zip (create_strand sq gid nw time n)).map Prod.fst).map
          (fun i => u32 (globalIndex gid nw * n + i)) := by rw [List.map_map]
    _ = (List.range n).map (fun i => u32 (globalIndex gid nw * n + i)) := by rw [hz]

/-- Sum of a constant over a list. -/
theorem sum_map_const {α : Type} (l : List α) (c : Nat) :
    (l.map (fun _ => c)).sum = l.length * c := by
  induction l with
  | nil => simp
  | cons a t ih => simp [ih, Nat.succ_mul, Nat.add_comm]

/-- Length of the grid id list. -/
theorem gridIds_length (nw : UVec3) :
    (gridIds nw).length = (gridSize nw).z * ((gridSize nw).y * (gridSize nw).x) := by
  simp [gridIds, List.length_flatMap, Function.comp_def, List.length_map,
    List.length_range, sum_map_const]

/-- Membership in the grid id list means the worker is in bounds. -/
theorem gridIds_mem (nw : UVec3) (g : UVec3) (h : g ∈ gridIds nw) : InBounds g nw := by
  rw [gridIds] at h
  simp only [List.mem_flatMap, List.mem_map, List.mem_range] at h
  obtain ⟨gz, hz, hy⟩ := h
  obtain ⟨gy, hy, hx⟩ := hy
  obtain ⟨gx, hx, rfl⟩ := hx
  exact ⟨hx, hy, hz⟩

/-- Length of the full write list of a dispatch. -/
theorem allWritesN_length (sq : ℚ → ℚ) (nw : UVec3) (time : ℚ) (n : Nat) :
    (allWritesN sq nw time n).length = (gridIds nw).length * n := by
  simp [allWritesN, List.length_flatMap, Function.comp_def, strandWritesN_length, sum_map_const]

/-! ### Claims -/

/-- C1: at every sampled position, the central finite-difference
estimate of the divergence of the tangent field produced by
`curl_noise` (with the time-0 decorrelation offsets, at unit scale,
stencil spacing 1/256) is below 1/1000 in absolute value, for every
square-root implementation, since the tangent does not use it. -/
theorem C1_divergence_fd_below_epsilon (sq : ℚ → ℚ) :
    ∀ p ∈ samplePositions,
      |fdDivergence (fun q => (curl_noise sq q (offset_1 0) (offset_2 0) 1).tangent)
          p (1 / 256)| < 1 / 1000 := by
  intro p hp
  have ht : (fun q => (curl_noise sq q (offset_1 0) (offset_2 0) 1).tangent)
      = fun q => curlTangent q (offset_1 0) (offset_2 0) 1 := by
    funext q; exact curl_noise_tangent sq q (offset_1 0) (offset_2 0) 1
  rw [ht]
  simp only [samplePositions, List.mem_cons, List.not_mem_nil, or_false] at hp
  rcases hp with h | h | h <;> subst h <;> decide

/-- Witness for C1 at the first sampled position. -/
theorem C1_witness :
    (⟨85 / 256, 119 / 256, 45 / 256⟩ : Vec3) ∈ samplePositions ∧
    |fdDivergence (fun q => (curl_noise sqOne q (offset_1 0) (offset_2 0) 1).tangent)
        ⟨85 / 256, 119 / 256, 45 / 256⟩ (1 / 256)| < 1 / 1000 :=
  ⟨by decide, C1_divergence_fd_below_epsilon sqOne ⟨85 / 256, 119 / 256, 45 / 256⟩ (by decide)⟩

/-- C2: for every strand and every index `i` with
`i + 1 < SEGMENTS_PER_STRAND`, the record written at position `i` has
end position, end normal and end bitangent exactly equal to the start
position, start normal and start bitangent of the record written at
position `i + 1` (the loop copies the state verbatim, so equality is
exact). -/
theorem C2_chain_continuity (sq : ℚ → ℚ) (gid nw : UVec3) (time : ℚ) (i : Nat)
    (h : i + 1 < SEGMENTS_PER_STRAND) :
    (((create_strand sq gid nw time SEGMENTS_PER_STRAND).getD i default).end_position
        = ((create_strand sq gid nw time SEGMENTS_PER_STRAND).getD (i + 1) default).start_position)
      ∧ (((create_strand sq gid nw time SEGMENTS_PER_STRAND).getD i default).end_normal
        = ((create_strand sq gid nw time SEGMENTS_PER_STRAND).getD (i + 1) default).start_normal)
      ∧ (((create_strand sq gid nw time SEGMENTS_PER_STRAND).getD i default).end_bitangent
        = ((create_strand sq gid nw time SEGMENTS_PER_STRAND).getD
            (i + 1) default).start_bitangent) :=
  strandLoop_chain sq (offset_1 time) (offset_2 time) _ SEGMENTS_PER_STRAND _ i h

/-- Witness for C2 at strand `(0,0,0)` of a one-workgroup dispatch,
index 0. -/
theorem C2_witness :
    0 + 1 < SEGMENTS_PER_STRAND ∧
    (((create_strand sqOne ⟨0, 0, 0⟩ ⟨1, 1, 1⟩ 0 SEGMENTS_PER_STRAND).getD 0 default).end_position
      = ((create_strand sqOne ⟨0, 0, 0⟩ ⟨1, 1, 1⟩ 0 SEGMENTS_PER_STRAND).getD
          (0 + 1) default).start_position) :=
  ⟨by decide, (C2_chain_continuity sqOne ⟨0, 0, 0⟩ ⟨1, 1, 1⟩ 0 0 (by decide)).1⟩

/-- C7 counterexample: `curl_noise` has no fallback reference axis.  At
the input below (scale 0, two specially constructed integer offsets)
the tangent is nonzero and exactly parallel to the fixed up axis
`(0,1,0)`, and the returned frame has a zero normal vector instead of
some valid frame, refuting the claim that a secondary axis is
substituted to keep the frame well defined for every input. -/
theorem C7_counterexample_no_fallback :
    (curl_noise sqOne ⟨0, 0, 0⟩ ⟨9720788, 3, 0⟩ ⟨2155773, 48, 0⟩ 0).tangent ≠ ⟨0, 0, 0⟩ ∧
    Vec3.cross (curl_noise sqOne ⟨0, 0, 0⟩ ⟨9720788, 3, 0⟩ ⟨2155773, 48, 0⟩ 0).tangent ⟨0, 1, 0⟩
      = ⟨0, 0, 0⟩ ∧
    (curl_noise sqOne ⟨0, 0, 0⟩ ⟨9720788, 3, 0⟩ ⟨2155773, 48, 0⟩ 0).normal = ⟨0, 0, 0⟩ :=
  ⟨by decide, by decide, by decide⟩

/-- C7 amended: the normal of `curl_noise` is always derived from the
fixed up reference `(0,1,0)` with no fallback; whenever the tangent is
parallel to the up axis (the cross product vanishes), the returned
normal is the zero vector — a degenerate frame rather than a valid
one — for every square-root implementation. -/
theorem C7_amended_degenerate_zero_normal (sq : ℚ → ℚ) (p oy oz : Vec3) (s : ℚ)
    (h : Vec3.cross (curl_noise sq p oy oz s).tangent ⟨0, 1, 0⟩ = ⟨0, 0, 0⟩) :
    (curl_noise sq p oy oz s).normal = ⟨0, 0, 0⟩ := by
  rw [curl_noise_tangent] at h
  rw [curl_noise_normal, normalizeV_def (v := curlTangent p oy oz s), Vec3.cross_smul_left, h,
    Vec3.smul_zero_vec, normalizeV_zero]

/-- Witness for the amended C7 at the degenerate input of the
counterexample. -/
theorem C7_witness :
    Vec3.cross (curl_noise sqOne ⟨0, 0, 0⟩ ⟨9720788, 3, 0⟩ ⟨2155773, 48, 0⟩ 0).tangent ⟨0, 1, 0⟩
        = ⟨0, 0, 0⟩ ∧
    (curl_noise sqOne ⟨0, 0, 0⟩ ⟨9720788, 3, 0⟩ ⟨2155773, 48, 0⟩ 0).normal = ⟨0, 0, 0⟩ :=
  ⟨by decide,
    C7_amended_degenerate_zero_normal sqOne ⟨0, 0, 0⟩ ⟨9720788, 3, 0⟩ ⟨2155773, 48, 0⟩ 0
      (by decide)⟩

/-- C8 counterexample: `hash` does not return unit-length vectors; at
the origin the squared length of the returned vector is below 9/10, so
its length is well away from 1. -/
theorem C8_counterexample_not_unit :
    Vec3.dot (hash ⟨0, 0, 0⟩) (hash ⟨0, 0, 0⟩) < 9 / 10 := by decide

/-- A scaled u32 value lies in the unit interval. -/
theorem hash_component_bounds (m : Nat) (h : m < U32SIZE) :
    0 ≤ (m : ℚ) * (1 / 4294967295) ∧ (m : ℚ) * (1 / 4294967295) ≤ 1 := by
  constructor
  · positivity
  · have hm : (m : ℚ) ≤ 4294967295 := by
      have : m ≤ 4294967295 := by
        have : U32SIZE = 4294967296 := rfl
        omega
      exact_mod_cast this
    linarith

/-- Every `hash` output is componentwise a u32 value scaled into the
unit interval. -/
theorem hash_component_form (u : UVec3) :
    ∃ a b c : Nat, a < U32SIZE ∧ b < U32SIZE ∧ c < U32SIZE ∧
      hash u = ⟨(a : ℚ) * (1 / 4294967295), (b : ℚ) * (1 / 4294967295),
        (c : ℚ) * (1 / 4294967295)⟩ := by
  refine ⟨_, _, _, ?_, ?_, ?_, rfl⟩ <;> exact Nat.mod_lt _ (by norm_num [U32SIZE])

/-- C8 amended: `hash` is deterministic (it is a pure function of the
lattice coordinate in this embedding) and returns a pseudo-random point
of the closed unit cube: every component lies in `[0, 1]`; it is not a
unit-length vector. -/
theorem C8_amended_unit_cube (u : UVec3) :
    0 ≤ (hash u).x ∧ (hash u).x ≤ 1 ∧ 0 ≤ (hash u).y ∧ (hash u).y ≤ 1 ∧
      0 ≤ (hash u).z ∧ (hash u).z ≤ 1 := by
  obtain ⟨a, b, c, ha, hb, hc, he⟩ := hash_component_form u
  rw [he]
  exact ⟨(hash_component_bounds a ha).1, (hash_component_bounds a ha).2,
    (hash_component_bounds b hb).1, (hash_component_bounds b hb).2,
    (hash_component_bounds c hc).1, (hash_component_bounds c hc).2⟩

/-- C3 counterexample: the u32 linearization wraps for large (but
API-dispatchable) grids, so the claim does not hold for every grid
configuration.  With 65535 x 65535 x 1 workgroups, the distinct
in-bounds workers `(983024,0,0)` and `(0,4097,0)` get the same
`global_invocation_index` modulo `2^32` and therefore write exactly the
same buffer index range. -/
theorem C3_counterexample_wraparound_collision :
    (⟨983024, 0, 0⟩ : UVec3) ≠ ⟨0, 4097, 0⟩ ∧
    InBounds ⟨983024, 0, 0⟩ ⟨65535, 65535, 1⟩ ∧
    InBounds ⟨0, 4097, 0⟩ ⟨65535, 65535, 1⟩ ∧
    globalIndex ⟨983024, 0, 0⟩ ⟨65535, 65535, 1⟩ = globalIndex ⟨0, 4097, 0⟩ ⟨65535, 65535, 1⟩ ∧
    (strandWrites sqOne ⟨983024, 0, 0⟩ ⟨65535, 65535, 1⟩ 0).map Prod.fst
      = (strandWrites sqOne ⟨0, 4097, 0⟩ ⟨65535, 65535, 1⟩ 0).map Prod.fst :=
  ⟨by decide, by decide, by decide, by decide, by decide⟩

/-- C3 amended: for every grid configuration whose u32 index arithmetic
does not wrap (`NoOverflow`), each in-bounds worker writes exactly
`SEGMENTS_PER_STRAND` records at the contiguous buffer indices
`globalIndex * SEGMENTS_PER_STRAND + i`, `i < SEGMENTS_PER_STRAND`, and
the index ranges of two distinct workers are disjoint. -/
theorem C3_amended_disjoint_contiguous_ranges (sq : ℚ → ℚ) (time : ℚ) (nw a b : UVec3)
    (hno : NoOverflow nw) (ha : InBounds a nw) (hb : InBounds b nw) (hab : a ≠ b) :
    (strandWrites sq a nw time).length = SEGMENTS_PER_STRAND ∧
    (strandWrites sq a nw time).map Prod.fst
      = (List.range SEGMENTS_PER_STRAND).map
          (fun i => globalIndex a nw * SEGMENTS_PER_STRAND + i) ∧
    ∀ k ∈ (strandWrites sq a nw time).map Prod.fst,
      k ∉ (strandWrites sq b nw time).map Prod.fst := by
  have htot32 : totalStrands nw * SEGMENTS_PER_STRAND ≤ U32SIZE := by
    obtain ⟨_, _, _, h4⟩ := hno
    simpa [totalStrands] using h4
  have hidx : ∀ (g : UVec3), InBounds g nw → ∀ i, i < SEGMENTS_PER_STRAND →
      globalIndex g nw * SEGMENTS_PER_STRAND + i < U32SIZE := by
    intro g hg i hi
    have h1 : globalIndex g nw < totalStrands nw := globalIndex_lt g nw hno hg
    have h2 : globalIndex g nw * SEGMENTS_PER_STRAND + i
        < totalStrands nw * SEGMENTS_PER_STRAND := by
      have : (globalIndex g nw + 1) * SEGMENTS_PER_STRAND
          ≤ totalStrands nw * SEGMENTS_PER_STRAND := Nat.mul_le_mul_right _ (by omega)
      have e : (globalIndex g nw + 1) * SEGMENTS_PER_STRAND
          = globalIndex g nw * SEGMENTS_PER_STRAND + SEGMENTS_PER_STRAND := by ring
      omega
    omega
  have hmap : ∀ (g : UVec3), InBounds g nw →
      (strandWrites sq g nw time).map Prod.fst
        = (List.range SEGMENTS_PER_STRAND).map
            (fun i => globalIndex g nw * SEGMENTS_PER_STRAND + i) := by
    intro g hg
    rw [strandWrites, strandWritesN_fst]
    apply List.map_congr_left
    intro i hi
    exact u32_eq_of_lt (hidx g hg i (List.mem_range.mp hi))
  refine ⟨by rw [strandWrites, strandWritesN_length], hmap a ha, ?_⟩
  intro k hk hk2
  rw [hmap a ha] at hk
  rw [hmap b hb] at hk2
  simp only [List.mem_map, List.mem_range] at hk hk2
  obtain ⟨i, hi, rfl⟩ := hk
  obtain ⟨j, hj, hij⟩ := hk2
  have hgii : globalIndex b nw = globalIndex a nw := by
    simp only [SEGMENTS_PER_STRAND] at hij hi hj
    omega
  exact hab (globalIndex_inj a b nw hno ha hb hgii.symm)

/-- Witness for the amended C3: two adjacent workers of a 1x1x1
dispatch. -/
theorem C3_witness :
    NoOverflow ⟨1, 1, 1⟩ ∧
    (strandWrites sqOne ⟨0, 0, 0⟩ ⟨1, 1, 1⟩ 0).map Prod.fst
      = (List.range SEGMENTS_PER_STRAND).map
          (fun i => globalIndex ⟨0, 0, 0⟩ ⟨1, 1, 1⟩ * SEGMENTS_PER_STRAND + i) ∧
    ∀ k ∈ (strandWrites sqOne ⟨0, 0, 0⟩ ⟨1, 1, 1⟩ 0).map Prod.fst,
      k ∉ (strandWrites sqOne ⟨1, 0, 0⟩ ⟨1, 1, 1⟩ 0).map Prod.fst :=
  ⟨by decide,
    (C3_amended_disjoint_contiguous_ranges sqOne 0 ⟨1, 1, 1⟩ ⟨0, 0, 0⟩ ⟨1, 0, 0⟩
      (by decide) (by decide) (by decide) (by decide)).2.1,
    (C3_amended_disjoint_contiguous_ranges sqOne 0 ⟨1, 1, 1⟩ ⟨0, 0, 0⟩ ⟨1, 0, 0⟩
      (by decide) (by decide) (by decide) (by decide)).2.2⟩

/-- C4: for every overflow-free dispatch, one frame writes exactly
`totalStrands * SEGMENTS_PER_STRAND` records, and the last byte touched
by any write under the padded 16-bytes-per-field record layout is
strictly below the allocated capacity `8 * 16 * numSegments` bytes. -/
theorem C4_buffer_safety (sq : ℚ → ℚ) (nw : UVec3) (time : ℚ) (hno : NoOverflow nw) :
    (allWrites sq nw time).length = totalStrands nw * SEGMENTS_PER_STRAND ∧
    ∀ w ∈ allWrites sq nw time,
      lastByteTouched w.1 < bufferCapacity nw SEGMENTS_PER_STRAND := by
  constructor
  · rw [allWrites, allWritesN_length, gridIds_length, gridSize_eq nw hno]
    simp only [totalStrands]
    ring
  · intro w hw
    rw [allWrites, allWritesN] at hw
    rw [List.mem_flatMap] at hw
    obtain ⟨g, hg, hwg⟩ := hw
    have hgb : InBounds g nw := gridIds_mem nw g hg
    rw [strandWritesN, List.mem_map] at hwg
    obtain ⟨p, hp, rfl⟩ := hwg
    have hp1 : p.1 ∈ List.range SEGMENTS_PER_STRAND := (List.of_mem_zip hp).1
    have hi : p.1 < SEGMENTS_PER_STRAND := List.mem_range.mp hp1
    have h1 : globalIndex g nw < totalStrands nw := globalIndex_lt g nw hno hgb
    have h2 : globalIndex g nw * SEGMENTS_PER_STRAND + p.1
        < totalStrands nw * SEGMENTS_PER_STRAND := by
      have h3 : (globalIndex g nw + 1) * SEGMENTS_PER_STRAND
          ≤ totalStrands nw * SEGMENTS_PER_STRAND := Nat.mul_le_mul_right _ (by omega)
      have e : (globalIndex g nw + 1) * SEGMENTS_PER_STRAND
          = globalIndex g nw * SEGMENTS_PER_STRAND + SEGMENTS_PER_STRAND := by ring
      omega
    have hu : u32 (globalIndex g nw * SEGMENTS_PER_STRAND + p.1)
        = globalIndex g nw * SEGMENTS_PER_STRAND + p.1 := by
      apply u32_eq_of_lt
      obtain ⟨_, _, _, h4⟩ := hno
      have : totalStrands nw * SEGMENTS_PER_STRAND ≤ U32SIZE := by
        simpa [totalStrands] using h4
      omega
    rw [hu]
    rw [lastByteTouched, bufferCapacity, RECORD_BYTES]
    omega

/-- Witness for C4 at the dispatch constants of the source
(`WORKGROUPS = (1,2,1)`, 512 strands, 16384 segments, 2097152-byte
buffer). -/
theorem C4_witness :
    NoOverflow WORKGROUPS ∧
    (allWrites sqOne WORKGROUPS 0).length = totalStrands WORKGROUPS * SEGMENTS_PER_STRAND ∧
    ∀ w ∈ allWrites sqOne WORKGROUPS 0,
      lastByteTouched w.1 < bufferCapacity WORKGROUPS SEGMENTS_PER_STRAND :=
  ⟨by decide, (C4_buffer_safety sqOne WORKGROUPS 0 (by decide)).1,
    (C4_buffer_safety sqOne WORKGROUPS 0 (by decide)).2⟩

/-- C5 counterexample: the frame stored with the new position is NOT
the frame of the field at that new position.  For the first record of
strand `(0,0,0)` the stored end normal is the normal sampled at the
step's start position, which differs from the normal `curl_noise`
returns at the record's end position. -/
theorem C5_counterexample_frame_not_at_new_position :
    ((create_strand sqOne ⟨0, 0, 0⟩ ⟨1, 1, 1⟩ 0 1).getD 0 default).end_normal
      ≠ (curl_noise sqOne
          ((create_strand sqOne ⟨0, 0, 0⟩ ⟨1, 1, 1⟩ 0 1).getD 0 default).end_position
          (offset_1 0) (offset_2 0) NOISE_SCALE).normal := by decide

/-- C5 amended: the integrator is explicit forward Euler with
`STEP_SIZE = 0.05` — each record's end position is its start position
plus `STEP_SIZE` times the tangent sampled at the start position — and
the frame stored with the new position is the frame `curl_noise`
returns at the step's START position (recomputed every step, but
lagging one position behind), not the frame at the new position. -/
theorem C5_amended_euler_with_frame_at_start (sq : ℚ → ℚ) (gid nw : UVec3) (time : ℚ)
    (n k : Nat) (hk : k < n) :
    (((create_strand sq gid nw time n).getD k default).end_position
        = Vec3.add ((create_strand sq gid nw time n).getD k default).start_position
            (Vec3.smul STEP_SIZE
              (curl_noise sq ((create_strand sq gid nw time n).getD k default).start_position
                (offset_1 time) (offset_2 time) NOISE_SCALE).tangent))
      ∧ (((create_strand sq gid nw time n).getD k default).end_normal
        = (curl_noise sq ((create_strand sq gid nw time n).getD k default).start_position
            (offset_1 time) (offset_2 time) NOISE_SCALE).normal)
      ∧ (((create_strand sq gid nw time n).getD k default).end_bitangent
        = (curl_noise sq ((create_strand sq gid nw time n).getD k default).start_position
            (offset_1 time) (offset_2 time) NOISE_SCALE).binormal) := by
  have hlen : k < (create_strand sq gid nw time n).length := by
    rw [create_strand_length]; exact hk
  have hmem : (create_strand sq gid nw time n).getD k default ∈ create_strand sq gid nw time n := by
    rw [List.getD_eq_getElem _ _ hlen]
    exact List.getElem_mem hlen
  have hspec := strandLoop_record_spec sq (offset_1 time) (offset_2 time) _ n _ _ hmem
  exact ⟨hspec.2.2.1, hspec.2.2.2.1, hspec.2.2.2.2⟩

/-- Witness for the amended C5 at the first record of strand `(0,0,0)`. -/
theorem C5_witness :
    0 < 1 ∧
    ((create_strand sqOne ⟨0, 0, 0⟩ ⟨1, 1, 1⟩ 0 1).getD 0 default).end_normal
      = (curl_noise sqOne
          ((create_strand sqOne ⟨0, 0, 0⟩ ⟨1, 1, 1⟩ 0 1).getD 0 default).start_position
          (offset_1 0) (offset_2 0) NOISE_SCALE).normal :=
  ⟨by decide, (C5_amended_euler_with_frame_at_start sqOne ⟨0, 0, 0⟩ ⟨1, 1, 1⟩ 0 1 0
    (by decide)).2.1⟩

/-- C6 counterexample: the tangent of a `curl_noise` frame is returned
without normalization and is far from unit length: at the sample below
its squared length differs from 1 by more than 1/2. -/
theorem C6_counterexample_tangent_not_unit :
    |Vec3.dot (curl_noise sqOne ⟨0, 0, 0⟩ (offset_1 0) (offset_2 0) NOISE_SCALE).tangent
        (curl_noise sqOne ⟨0, 0, 0⟩ (offset_1 0) (offset_2 0) NOISE_SCALE).tangent - 1|
      > 1 / 2 := by decide

/-- C6 amended: in every frame produced by `curl_noise` the three
pairwise dot products normal-tangent, normal-binormal and
binormal-tangent are exactly zero for every square-root implementation;
and whenever the square root is a good approximation at the two
arguments the normalizations use (the squared tangent length and the
squared length of the cross product of the normalized tangent with the
up axis), the normal and the binormal are unit length within a small
tolerance.  The tangent itself is returned unnormalized and need not
have unit length. -/
theorem C6_amended_orthogonality_and_unit_normals (sq : ℚ → ℚ) (p oy oz : Vec3) (s : ℚ) :
    (Vec3.dot (curl_noise sq p oy oz s).normal (curl_noise sq p oy oz s).tangent = 0
      ∧ Vec3.dot (curl_noise sq p oy oz s).normal (curl_noise sq p oy oz s).binormal = 0
      ∧ Vec3.dot (curl_noise sq p oy oz s).binormal (curl_noise sq p oy oz s).tangent = 0)
    ∧ (GoodAt sq (Vec3.dot (curl_noise sq p oy oz s).tangent
          (curl_noise sq p oy oz s).tangent) →
       GoodAt sq (Vec3.dot
          (Vec3.cross (normalizeV sq (curl_noise sq p oy oz s).tangent) ⟨0, 1, 0⟩)
          (Vec3.cross (normalizeV sq (curl_noise sq p oy oz s).tangent) ⟨0, 1, 0⟩)) →
       |Vec3.dot (curl_noise sq p oy oz s).normal (curl_noise sq p oy oz s).normal - 1|
           ≤ 1 / 100
         ∧ |Vec3.dot (curl_noise sq p oy oz s).binormal (curl_noise sq p oy oz s).binormal - 1|
           ≤ 1 / 20) := by
  rw [curl_noise_binormal, curl_noise_normal, curl_noise_tangent]
  set t := curlTangent p oy oz s with ht
  set d1 := Vec3.dot t t with hd1
  set tn := normalizeV sq t with htn
  set c := Vec3.cross tn ⟨0, 1, 0⟩ with hc
  set d2 := Vec3.dot c c with hd2
  have htn_eq : tn = Vec3.smul (1 / sq d1) t := by rw [htn, normalizeV_def, hd1]
  have hn_eq : normalizeV sq c = Vec3.smul (1 / sq d2) c := by rw [normalizeV_def, hd2]
  constructor
  · refine ⟨?_, ?_, ?_⟩
    · rw [hn_eq, hc, htn_eq, Vec3.dot_smul_left, Vec3.cross_smul_left, Vec3.dot_smul_left,
        Vec3.dot_cross_left]
      ring
    · rw [hn_eq, Vec3.dot_self_cross]
    · rw [hn_eq, htn_eq, Vec3.cross_smul_right, Vec3.dot_smul_left, Vec3.dot_cross_right]
      ring
  · intro h1 h2
    rw [hd1] at h1
    have h2g : GoodAt sq d2 := by rw [hd2, hc, htn]; exact h2
    have hnn : Vec3.dot (normalizeV sq c) (normalizeV sq c) = (1 / sq d2) ^ 2 * d2 := by
      rw [hn_eq, Vec3.dot_smul_smul, hd2]
    have htt : Vec3.dot tn tn = (1 / sq d1) ^ 2 * d1 := by
      rw [htn_eq, Vec3.dot_smul_smul, hd1]
    have hb1 := goodAt_ratio_bounds sq d1 h1
    have hb2 := goodAt_ratio_bounds sq d2 h2g
    have hntn : Vec3.dot (normalizeV sq c) tn = 0 := by
      rw [hn_eq, hc, htn_eq, Vec3.dot_smul_left, Vec3.cross_smul_left, Vec3.dot_smul_left,
        Vec3.dot_smul_right, Vec3.dot_cross_left]
      ring
    constructor
    · rw [hnn]
      rw [abs_le]
      constructor <;> nlinarith [hb2.1, hb2.2]
    · rw [Vec3.dot_cross_self, hnn, htt, hntn]
      rw [abs_le]
      have e1 : 1000 / 1001 ≤ d2 * (1 / sq d2) ^ 2 := hb2.1
      have e2 : d2 * (1 / sq d2) ^ 2 ≤ 1000 / 999 := hb2.2
      have e3 : 1000 / 1001 ≤ d1 * (1 / sq d1) ^ 2 := hb1.1
      have e4 : d1 * (1 / sq d1) ^ 2 ≤ 1000 / 999 := hb1.2
      constructor <;> nlinarith [e1, e2, e3, e4]

/-- Witness for the amended C6 at position `(0,0,0)` with the time-0
offsets and `NOISE_SCALE`, using a square-root stand-in that is a good
approximation at the two arguments the normalizations use there. -/
theorem C6_witness :
    GoodAt sqC6 (Vec3.dot (curl_noise sqC6 ⟨0, 0, 0⟩ (offset_1 0) (offset_2 0) NOISE_SCALE).tangent
        (curl_noise sqC6 ⟨0, 0, 0⟩ (offset_1 0) (offset_2 0) NOISE_SCALE).tangent) ∧
    GoodAt sqC6 (Vec3.dot
        (Vec3.cross (normalizeV sqC6
          (curl_noise sqC6 ⟨0, 0, 0⟩ (offset_1 0) (offset_2 0) NOISE_SCALE).tangent) ⟨0, 1, 0⟩)
        (Vec3.cross (normalizeV sqC6
          (curl_noise sqC6 ⟨0, 0, 0⟩ (offset_1 0) (offset_2 0) NOISE_SCALE).tangent) ⟨0, 1, 0⟩)) ∧
    |Vec3.dot (curl_noise sqC6 ⟨0, 0, 0⟩ (offset_1 0) (offset_2 0) NOISE_SCALE).normal
        (curl_noise sqC6 ⟨0, 0, 0⟩ (offset_1 0) (offset_2 0) NOISE_SCALE).normal - 1| ≤ 1 / 100 ∧
    |Vec3.dot (curl_noise sqC6 ⟨0, 0, 0⟩ (offset_1 0) (offset_2 0) NOISE_SCALE).binormal
        (curl_noise sqC6 ⟨0, 0, 0⟩ (offset_1 0) (offset_2 0) NOISE_SCALE).binormal - 1| ≤ 1 / 20 := by
  have h1 : GoodAt sqC6
      (Vec3.dot (curl_noise sqC6 ⟨0, 0, 0⟩ (offset_1 0) (offset_2 0) NOISE_SCALE).tangent
        (curl_noise sqC6 ⟨0, 0, 0⟩ (offset_1 0) (offset_2 0) NOISE_SCALE).tangent) := by decide
  have h2 : GoodAt sqC6 (Vec3.dot
      (Vec3.cross (normalizeV sqC6
        (curl_noise sqC6 ⟨0, 0, 0⟩ (offset_1 0) (offset_2 0) NOISE_SCALE).tangent) ⟨0, 1, 0⟩)
      (Vec3.cross (normalizeV sqC6
        (curl_noise sqC6 ⟨0, 0, 0⟩ (offset_1 0) (offset_2 0) NOISE_SCALE).tangent) ⟨0, 1, 0⟩)) := by
    decide
  have hc := (C6_amended_orthogonality_and_unit_normals sqC6 ⟨0, 0, 0⟩ (offset_1 0) (offset_2 0)
    NOISE_SCALE).2 h1 h2
  exact ⟨h1, h2, hc.1, hc.2⟩

/-- C9: doubling the per-strand segment count while holding every other
parameter fixed exactly doubles each strand's record count and the
total number of records written in a frame, and the first half of each
strand's doubled record list is identical to the un-doubled run (the
integration is forward only and deterministic). -/
theorem C9_doubling_segments (sq : ℚ → ℚ) (gid nw : UVec3) (time : ℚ) (n : Nat) :
    (create_strand sq gid nw time (2 * n)).length
        = 2 * (create_strand sq gid nw time n).length
      ∧ (create_strand sq gid nw time (2 * n)).take n = create_strand sq gid nw time n
      ∧ (allWritesN sq nw time (2 * n)).length = 2 * (allWritesN sq nw time n).length := by
  refine ⟨?_, ?_, ?_⟩
  · rw [create_strand_length, create_strand_length]
  · have e : 2 * n = n + n := by omega
    rw [e]
    exact strandLoop_take sq (offset_1 time) (offset_2 time) _ n n _
  · rw [allWritesN_length, allWritesN_length]
    ring

/-- C10: every record of a strand carries the same colour — the
greyscale `global_invocation_index / total_invocations` replicated to
all three channels — and the same fixed radius `TUBE_RADIUS`; for an
in-bounds worker of an overflow-free dispatch the greyscale value lies
in `[0, 1)`. -/
theorem C10_constant_colour_and_radius (sq : ℚ → ℚ) (gid nw : UVec3) (time : ℚ)
    (n k : Nat) (hk : k < n) :
    ((create_strand sq gid nw time n).getD k default).colour
        = ⟨(globalIndex gid nw : ℚ) / (totalInvocations nw : ℚ),
            (globalIndex gid nw : ℚ) / (totalInvocations nw : ℚ),
            (globalIndex gid nw : ℚ) / (totalInvocations nw : ℚ)⟩
      ∧ ((create_strand sq gid nw time n).getD k default).radius = TUBE_RADIUS
      ∧ (InBounds gid nw → NoOverflow nw →
          0 ≤ (globalIndex gid nw : ℚ) / (totalInvocations nw : ℚ)
            ∧ (globalIndex gid nw : ℚ) / (totalInvocations nw : ℚ) < 1) := by
  have hlen : k < (create_strand sq gid nw time n).length := by
    rw [create_strand_length]; exact hk
  have hmem : (create_strand sq gid nw time n).getD k default
      ∈ create_strand sq gid nw time n := by
    rw [List.getD_eq_getElem _ _ hlen]
    exact List.getElem_mem hlen
  have hspec := strandLoop_record_spec sq (offset_1 time) (offset_2 time) _ n _ _ hmem
  refine ⟨hspec.1, hspec.2.1, ?_⟩
  intro hb hno
  have hlt : globalIndex gid nw < totalStrands nw := globalIndex_lt gid nw hno hb
  have htot : totalInvocations nw = totalStrands nw := by
    rw [totalInvocations, gridSize_eq nw hno]
    apply u32_eq_of_lt
    obtain ⟨_, _, _, h4⟩ := hno
    simp only [SEGMENTS_PER_STRAND, U32SIZE] at h4 ⊢
    omega
  have htpos : 0 < totalStrands nw := by omega
  rw [htot]
  constructor
  · positivity
  · rw [div_lt_one (by exact_mod_cast htpos)]
    exact_mod_cast hlt

/-- Witness for C10 at the first record of strand `(0,0,0)` of a 1x1x1
dispatch. -/
theorem C10_witness :
    0 < 1 ∧
    ((create_strand sqOne ⟨0, 0, 0⟩ ⟨1, 1, 1⟩ 0 1).getD 0 default).colour
        = ⟨(globalIndex ⟨0, 0, 0⟩ ⟨1, 1, 1⟩ : ℚ) / (totalInvocations ⟨1, 1, 1⟩ : ℚ),
            (globalIndex ⟨0, 0, 0⟩ ⟨1, 1, 1⟩ : ℚ) / (totalInvocations ⟨1, 1, 1⟩ : ℚ),
            (globalIndex ⟨0, 0, 0⟩ ⟨1, 1, 1⟩ : ℚ) / (totalInvocations ⟨1, 1, 1⟩ : ℚ)⟩ ∧
    ((create_strand sqOne ⟨0, 0, 0⟩ ⟨1, 1, 1⟩ 0 1).getD 0 default).radius = TUBE_RADIUS ∧
    (0 ≤ (globalIndex ⟨0, 0, 0⟩ ⟨1, 1, 1⟩ : ℚ) / (totalInvocations ⟨1, 1, 1⟩ : ℚ)
      ∧ (globalIndex ⟨0, 0, 0⟩ ⟨1, 1, 1⟩ : ℚ) / (totalInvocations ⟨1, 1, 1⟩ : ℚ) < 1) :=
  ⟨by decide,
    (C10_constant_colour_and_radius sqOne ⟨0, 0, 0⟩ ⟨1, 1, 1⟩ 0 1 0 (by decide)).1,
    (C10_constant_colour_and_radius sqOne ⟨0, 0, 0⟩ ⟨1, 1, 1⟩ 0 1 0 (by decide)).2.1,
    (C10_constant_colour_and_radius sqOne ⟨0, 0, 0⟩ ⟨1, 1, 1⟩ 0 1 0 (by decide)).2.2
      (by decide) (by decide)⟩
